import Mathlib

/-!
# Verification of the retrieval core of `embeddings_manager.py`

A shallow embedding of the `EmbeddingsManager` class (build / persist / load /
combine / search / relevance filtering) of the RAG repository, together with
proofs of the specified properties.

Modelling conventions:
* similarity scores and embedding coordinates are rationals (`ℚ`); the claims
  under study only compare and maximise scores, never do float arithmetic;
* an embedding vector is a list of rationals; the FAISS `IndexFlatIP` is
  modelled by the ordered list of vectors that were added to it;
* the sentence-transformer model is an external collaborator: it is a
  parameter `model : String → Option Vec`, `none` meaning the encode call
  raises (the spec's `EmbeddingError`); the batch call `model.encode(texts)`
  is `encodeBatch`, which fails iff encoding of some text fails;
* the FAISS search primitive is likewise a parameter returning the parallel
  `(scores, indices)` rows as one list of pairs (FAISS always returns two
  arrays of identical shape), with `Int` ids because FAISS pads with `-1`;
* the on-disk snapshot store is a pair of association lists keyed by the
  filename prefix (the file paths are a fixed injective function of the
  prefix, so the prefix is the key);
* a Python exception is an `Except PyErr` / `Option` result; the manager
  state at raise time is returned alongside where mutation precedes the
  raising call.
-/

set_option autoImplicit false

namespace RagCore

/-- An embedding vector: the model maps text to a fixed-dimension vector. -/
abbrev Vec := List ℚ

/-- A text chunk with provenance metadata.  The source keeps metadata as a
dict; its persisted-identity keys are the string-valued association list
`metadata`, while the numeric `relevance_score` key — the only key any
retrieval operation ever writes (`chunk["metadata"]["relevance_score"] =
float(score)`) — is modelled as a separate optional field so it has numeric
type. -/
structure Chunk where
  text : String
  metadata : List (String × String)
  relevance_score : Option ℚ
deriving DecidableEq, Repr

/-- `chunk["metadata"]["relevance_score"] = float(score)`: overwrite the
transient score, leaving text and the other metadata untouched. -/
def setRelevance (c : Chunk) (s : ℚ) : Chunk :=
  { c with relevance_score := some s }

/-- Exceptions the retrieval core can raise.  `stateError` is the
`ValueError` raised by `save_embeddings` / `search_similar_chunks` when no
index or chunks are held (the spec's `StateError`); `embedError` is a model
failure propagating out of `encode` (the spec's `EmbeddingError`);
`indexError` is a Python `IndexError`. -/
inductive PyErr where
  | stateError
  | embedError
  | indexError
deriving DecidableEq, Repr

/-- First index of the maximum together with that maximum, accumulator form:
`bestIdx`/`bestVal` is the best seen so far, `cur` the index of the head of
the remaining list.  A later element replaces the best only when strictly
greater, as `np.argmax` keeps the first occurrence of the maximum. -/
def argmaxAux : Nat → ℚ → Nat → List ℚ → Nat × ℚ
  | bi, bv, _, [] => (bi, bv)
  | bi, bv, cur, y :: ys =>
    if bv < y then argmaxAux cur y (cur + 1) ys else argmaxAux bi bv (cur + 1) ys

/-- `np.argmax(scores)` with its value; `none` on the empty list, where
`np.argmax` raises `ValueError`. -/
def argmaxIdx : List ℚ → Option (Nat × ℚ)
  | [] => none
  | x :: xs => some (argmaxAux 0 x 1 xs)

/-- `filter_relevant_chunks` (threshold read from
`self.relevance_threshold`).  Keeps, in order, every candidate whose score
clears the threshold, stamping the score into its metadata; when none
clears it but candidates exist, falls back to the single `np.argmax` top
candidate.  `none` models an uncaught exception (`np.argmax` on an empty
score array, or `chunks[top_idx]` out of range), possible only when the
two parallel lists disagree in length. -/
def filter_relevant_chunks (threshold : ℚ) (chunks : List Chunk) (scores : List ℚ) :
    Option (List Chunk) :=
  if chunks.isEmpty then
    some []
  else
    let relevant := ((chunks.zip scores).filter fun cs => threshold ≤ cs.2).map
      fun cs => setRelevance cs.1 cs.2
    if relevant.isEmpty then
      match argmaxIdx scores with
      | none => none
      | some (ti, _) =>
        match chunks[ti]?, scores[ti]? with
        | some c, some s => some [setRelevance c s]
        | _, _ => none
    else
      some relevant

/-- The manager's in-memory state: `self.index` (the ordered vectors held by
the FAISS index, `None` before a build/load), `self.chunks`, and the
live-tunable `self.relevance_threshold` (default `0.65`). -/
structure EmbeddingsManager where
  index : Option (List Vec)
  chunks : Option (List Chunk)
  relevance_threshold : ℚ
deriving DecidableEq, Repr

/-- The constructor's default `self.relevance_threshold = 0.65`. -/
def defaultThreshold : ℚ := 65 / 100

/-- The on-disk snapshot store under the fixed `embeddings` folder: for each
filename prefix, the `{prefix}_index.faiss` artifact and the
`{prefix}_chunks.pkl` artifact. -/
structure Store where
  indexFiles : List (String × List Vec)
  chunkFiles : List (String × List Chunk)
deriving DecidableEq, Repr

/-- `os.path.exists` + read of an artifact: first binding of the prefix in
the association list, `none` when the file is missing. -/
def findArtifact {α : Type} (pre : String) : List (String × α) → Option α
  | [] => none
  | (k, v) :: rest => if pre = k then some v else findArtifact pre rest

/-- Writing an artifact overwrites any previous one under the same prefix;
prepending shadows the old binding. -/
def putArtifact {α : Type} (pre : String) (v : α) (files : List (String × α)) :
    List (String × α) :=
  (pre, v) :: files

/-- The external embedding model: text to vector, `none` when `encode`
raises (`EmbeddingError`). Deterministic for a fixed model version. -/
abbrev Model := String → Option Vec

/-- The batch call `self.model.encode(texts, normalize_embeddings=True)`:
one vector per text, failing as a whole if any text fails to encode. -/
def encodeBatch (model : Model) : List String → Option (List Vec)
  | [] => some []
  | t :: ts =>
    match model t, encodeBatch model ts with
    | some v, some vs => some (v :: vs)
    | _, _ => none

/-- The external FAISS search primitive `index.search(query_embedding, k)`:
given the vectors held by the index, the query vector and `k`, the parallel
rows `scores[0]` / `indices[0]` as one list of pairs. Ids are `Int` because
FAISS pads missing results with `-1`. -/
abbrev IndexSearch := List Vec → Vec → Nat → List (ℚ × Int)

/-- `create_embeddings(chunks)`.  Mirrors the statement order of the source:
`self.chunks = chunks` happens first; only then is the batch encoded and a
fresh index built and assigned.  Returns the state paired with
`some embeddings` on success and `none` when an exception escapes — either
`encode` raised (`EmbeddingError`), or the batch was empty, where
`embeddings.shape[1]` raises on a shape-`(0,)` array.  In both failure modes
the returned state already holds the new chunks but still the old index. -/
def create_embeddings (model : Model) (m : EmbeddingsManager) (chunks : List Chunk) :
    EmbeddingsManager × Option (List Vec) :=
  let m1 := { m with chunks := some chunks }
  match encodeBatch model (chunks.map fun c => c.text) with
  | none => (m1, none)
  | some embs =>
    if embs.isEmpty then (m1, none)
    else ({ m1 with index := some embs }, some embs)

/-- `os.path.join(self.embeddings_folder, f"\x7bfilename_prefix\x7d_index.faiss")`. -/
def indexPath (pre : String) : String :=
  "embeddings/" ++ pre ++ "_index.faiss"

/-- `os.path.join(self.embeddings_folder, f"\x7bfilename_prefix\x7d_chunks.pkl")`. -/
def chunksPath (pre : String) : String :=
  "embeddings/" ++ pre ++ "_chunks.pkl"

/-- `save_embeddings(filename_prefix)`.  Raises `ValueError` (the spec's
`StateError`) when no index or no chunks are held; otherwise writes the two
artifacts under the prefix and returns their paths. -/
def save_embeddings (m : EmbeddingsManager) (store : Store) (pre : String) :
    Store × Except PyErr (String × String) :=
  match m.index, m.chunks with
  | some ix, some cs =>
    ({ indexFiles := putArtifact pre ix store.indexFiles,
       chunkFiles := putArtifact pre cs store.chunkFiles },
     Except.ok (indexPath pre, chunksPath pre))
  | _, _ => (store, Except.error PyErr.stateError)

/-- `load_embeddings(filename_prefix)`: `false` (state untouched) when
either artifact is missing, else replace both held components wholesale. -/
def load_embeddings (store : Store) (m : EmbeddingsManager) (pre : String) :
    EmbeddingsManager × Bool :=
  match findArtifact pre store.indexFiles, findArtifact pre store.chunkFiles with
  | some ix, some cs => ({ m with index := some ix, chunks := some cs }, true)
  | _, _ => (m, false)

/-- The loop of `combine_embeddings`: load the chunk artifact of each source
in order and concatenate, `none` as soon as one is missing. -/
def loadAllChunks (store : Store) : List String → Option (List Chunk)
  | [] => some []
  | s :: rest =>
    match findArtifact s store.chunkFiles with
    | none => none
    | some cs =>
      match loadAllChunks store rest with
      | none => none
      | some acc => some (cs ++ acc)

/-- `combine_embeddings(sources)`: returns `false` without touching the
manager or the store when some source's chunk artifact is missing;
otherwise rebuilds from the concatenation and persists under the canonical
`"university_combined"` prefix.  An exception escaping the rebuild
propagates (`Except.error`) with the store unwritten. -/
def combine_embeddings (model : Model) (m : EmbeddingsManager) (store : Store)
    (sources : List String) : EmbeddingsManager × Store × Except PyErr Bool :=
  match loadAllChunks store sources with
  | none => (m, store, Except.ok false)
  | some all =>
    match create_embeddings model m all with
    | (m1, none) => (m1, store, Except.error PyErr.embedError)
    | (m1, some _) =>
      let (store1, r) := save_embeddings m1 store "university_combined"
      match r with
      | Except.error e => (m1, store1, Except.error e)
      | Except.ok _ => (m1, store1, Except.ok true)

/-- Python's `self.chunks[idx]` with an `Int` subscript: non-negative
indices read from the front, indices in `[-len, 0)` read from the end, and
anything else raises `IndexError` (`none`). -/
def pyIndex (cs : List Chunk) (idx : Int) : Option Chunk :=
  if 0 ≤ idx then cs[idx.toNat]?
  else
    let j : Int := idx + cs.length
    if 0 ≤ j then cs[j.toNat]? else none

/-- The gather loop of `search_similar_chunks`: for each `(score, idx)` hit,
keep `self.chunks[idx]` and the score whenever `idx < len(self.chunks)` —
the source's only guard.  `none` models the `IndexError` raised by a kept
subscript below `-len(self.chunks)`. -/
def gatherHits (cs : List Chunk) : List (ℚ × Int) → Option (List Chunk × List ℚ)
  | [] => some ([], [])
  | (s, idx) :: rest =>
    if idx < (cs.length : Int) then
      match pyIndex cs idx with
      | none => none
      | some c =>
        match gatherHits cs rest with
        | none => none
        | some (rs, ss) => some (c :: rs, s :: ss)
    else gatherHits cs rest

/-- `search_similar_chunks(query, k)`: `ValueError` (`StateError`) when no
index or chunks are held; otherwise encode the query, run the index search,
gather the in-guard hits and delegate to the relevance filter.  A `none`
from the filter (impossible for the equal-length lists the gather produces)
is surfaced as the `IndexError` it stands for. -/
def search_similar_chunks (model : Model) (isearch : IndexSearch)
    (m : EmbeddingsManager) (query : String) (k : Nat) :
    Except PyErr (List Chunk) :=
  match m.index, m.chunks with
  | some ix, some cs =>
    match model query with
    | none => Except.error PyErr.embedError
    | some qv =>
      match gatherHits cs (isearch ix qv k) with
      | none => Except.error PyErr.indexError
      | some (results, resultScores) =>
        match filter_relevant_chunks m.relevance_threshold results resultScores with
        | none => Except.error PyErr.indexError
        | some relevant => Except.ok relevant
  | _, _ => Except.error PyErr.stateError

/-! ## Helper lemmas -/

theorem argmaxAux_spec (ys : List ℚ) (bi cur : Nat) (bv : ℚ) :
    bv ≤ (argmaxAux bi bv cur ys).2 ∧
    (∀ y ∈ ys, y ≤ (argmaxAux bi bv cur ys).2) ∧
    (argmaxAux bi bv cur ys = (bi, bv) ∨
      ∃ j, (argmaxAux bi bv cur ys).1 = cur + j ∧
        ys[j]? = some (argmaxAux bi bv cur ys).2) := by
  induction ys generalizing bi cur bv with
  | nil => simp [argmaxAux]
  | cons y ys ih =>
    by_cases hlt : bv < y
    · simp only [argmaxAux, if_pos hlt]
      obtain ⟨h1, h2, h3⟩ := ih cur (cur + 1) y
      refine ⟨le_of_lt (lt_of_lt_of_le hlt h1), ?_, ?_⟩
      · intro z hz
        rcases List.mem_cons.mp hz with rfl | hz
        · exact h1
        · exact h2 z hz
      · right
        rcases h3 with heq | ⟨j, hj1, hj2⟩
        · refine ⟨0, ?_, ?_⟩
          · rw [heq]; simp
          · rw [heq]; simp
        · exact ⟨j + 1, by rw [hj1]; omega, by simpa using hj2⟩
    · simp only [argmaxAux, if_neg hlt]
      obtain ⟨h1, h2, h3⟩ := ih bi (cur + 1) bv
      refine ⟨h1, ?_, ?_⟩
      · intro z hz
        rcases List.mem_cons.mp hz with rfl | hz
        · exact le_trans (le_of_not_lt hlt) h1
        · exact h2 z hz
      · rcases h3 with heq | ⟨j, hj1, hj2⟩
        · exact Or.inl heq
        · exact Or.inr ⟨j + 1, by rw [hj1]; omega, by simpa using hj2⟩

theorem argmaxIdx_spec (l : List ℚ) (ti : Nat) (v : ℚ)
    (h : argmaxIdx l = some (ti, v)) :
    l[ti]? = some v ∧ ∀ y ∈ l, y ≤ v := by
  match l with
  | [] => simp [argmaxIdx] at h
  | x :: xs =>
    simp only [argmaxIdx, Option.some.injEq] at h
    obtain ⟨h1, h2, h3⟩ := argmaxAux_spec xs 0 1 x
    rw [h] at h1 h2 h3
    rcases h3 with heq | ⟨j, hj1, hj2⟩
    · obtain ⟨hti, hv⟩ := Prod.mk.injEq .. ▸ heq
      subst hti; subst hv
      refine ⟨by simp, ?_⟩
      intro y hy
      rcases List.mem_cons.mp hy with rfl | hy
      · exact le_refl y
      · exact h2 y hy
    · dsimp only at hj1 hj2
      subst hj1
      refine ⟨by rw [Nat.add_comm]; simpa using hj2, ?_⟩
      intro y hy
      rcases List.mem_cons.mp hy with rfl | hy
      · exact h1
      · exact h2 y hy

theorem getElem?_zip_of_getElem? {α β : Type} (l₁ : List α) (l₂ : List β) (i : Nat)
    (a : α) (b : β) (h₁ : l₁[i]? = some a) (h₂ : l₂[i]? = some b) :
    (l₁.zip l₂)[i]? = some (a, b) := by
  rw [List.getElem?_zip_eq_some]
  exact ⟨h₁, h₂⟩

/-- When some zipped candidate clears the threshold, the filter returns the
threshold-passing subsequence, scores stamped in. -/
theorem filter_hit_branch (t : ℚ) (chunks : List Chunk) (scores : List ℚ)
    (hx : ∃ p ∈ chunks.zip scores, t ≤ p.2) :
    filter_relevant_chunks t chunks scores =
      some (((chunks.zip scores).filter fun cs => t ≤ cs.2).map
        fun cs => setRelevance cs.1 cs.2) := by
  obtain ⟨p, hp, hpt⟩ := hx
  have hch : chunks ≠ [] := by
    rintro rfl
    simp at hp
  have hmem : p ∈ (chunks.zip scores).filter fun cs => t ≤ cs.2 :=
    List.mem_filter.mpr ⟨hp, by simpa using hpt⟩
  have hne2 : (((chunks.zip scores).filter fun cs => t ≤ cs.2).map
      fun cs => setRelevance cs.1 cs.2) ≠ [] :=
    List.ne_nil_of_mem (List.mem_map_of_mem _ hmem)
  simp only [filter_relevant_chunks]
  rw [if_neg (by simp [hch]), if_neg (by simpa [List.isEmpty_iff] using hne2)]

/-- When no candidate clears the threshold, the filter returns the single
`np.argmax` fallback candidate. -/
theorem filter_fallback_branch (t : ℚ) (chunks : List Chunk) (scores : List ℚ)
    (hch : chunks ≠ [])
    (hbelow : ∀ s ∈ scores, s < t)
    (ti : Nat) (v : ℚ) (hmx : argmaxIdx scores = some (ti, v))
    (c : Chunk) (hc : chunks[ti]? = some c) :
    filter_relevant_chunks t chunks scores = some [setRelevance c v] := by
  have hsv : scores[ti]? = some v := (argmaxIdx_spec _ _ _ hmx).1
  have hrel : ((chunks.zip scores).filter fun cs => t ≤ cs.2) = [] := by
    apply List.filter_eq_nil_iff.mpr
    rintro ⟨a, b⟩ hp
    have hb : b ∈ scores := (List.of_mem_zip hp).2
    simpa using not_le.mpr (hbelow _ hb)
  simp only [filter_relevant_chunks]
  rw [if_neg (by simp [hch]), hrel]
  simp only [List.map_nil, List.isEmpty_nil, if_true, hmx, hc, hsv]

theorem encodeBatch_length (model : Model) (ts : List String) (vs : List Vec)
    (h : encodeBatch model ts = some vs) : vs.length = ts.length := by
  induction ts generalizing vs with
  | nil =>
    simp only [encodeBatch, Option.some.injEq] at h
    subst h; rfl
  | cons t ts ih =>
    simp only [encodeBatch] at h
    split at h
    · next v vs' hv hvs =>
      obtain rfl : v :: vs' = vs := by simpa using h
      simp [ih _ hvs]
    · exact absurd h (by simp)

theorem create_embeddings_success (model : Model) (m m1 : EmbeddingsManager)
    (cs : List Chunk) (embs : List Vec)
    (h : create_embeddings model m cs = (m1, some embs)) :
    m1 = { index := some embs, chunks := some cs,
           relevance_threshold := m.relevance_threshold } ∧
    encodeBatch model (cs.map fun c => c.text) = some embs ∧ embs ≠ [] := by
  simp only [create_embeddings] at h
  split at h
  · exact absurd h (by simp)
  · next embs0 henc =>
    split at h
    · exact absurd h (by simp)
    · next hne =>
      obtain ⟨rfl, rfl⟩ : _ ∧ embs0 = embs := by simpa [Prod.ext_iff] using h
      exact ⟨rfl, henc, by simpa [List.isEmpty_iff] using hne⟩

theorem create_embeddings_of_encode (model : Model) (m : EmbeddingsManager)
    (cs : List Chunk) (embs : List Vec)
    (henc : encodeBatch model (cs.map fun c => c.text) = some embs)
    (hne : embs ≠ []) :
    create_embeddings model m cs =
      ({ index := some embs, chunks := some cs,
         relevance_threshold := m.relevance_threshold }, some embs) := by
  simp only [create_embeddings, henc]
  rw [if_neg (by simpa [List.isEmpty_iff] using hne)]

theorem create_embeddings_failure (model : Model) (m : EmbeddingsManager)
    (cs : List Chunk) (h : (create_embeddings model m cs).2 = none) :
    (create_embeddings model m cs).1 = { m with chunks := some cs } := by
  simp only [create_embeddings]
  simp only [create_embeddings] at h
  split
  · rfl
  · next embs henc =>
    rw [henc] at h
    split
    · rfl
    · next hne =>
      simp [hne] at h

theorem pyIndex_mem (cs : List Chunk) (idx : Int) (c : Chunk)
    (h : pyIndex cs idx = some c) : c ∈ cs := by
  unfold pyIndex at h
  split at h
  · exact List.getElem?_mem h
  · dsimp only at h
    split at h
    · exact List.getElem?_mem h
    · exact absurd h (by simp)

theorem gatherHits_mem (cs : List Chunk) (hits : List (ℚ × Int))
    (rs : List Chunk) (ss : List ℚ) (h : gatherHits cs hits = some (rs, ss)) :
    ∀ c ∈ rs, c ∈ cs := by
  induction hits generalizing rs ss with
  | nil =>
    obtain ⟨rfl, rfl⟩ : ([] : List Chunk) = rs ∧ ([] : List ℚ) = ss := by
      simpa [gatherHits, Prod.ext_iff] using h
    simp
  | cons p rest ih =>
    obtain ⟨s, idx⟩ := p
    simp only [gatherHits] at h
    split at h
    · split at h
      · exact absurd h (by simp)
      · next c0 hpy =>
        split at h
        · exact absurd h (by simp)
        · next rs0 ss0 hrec =>
          obtain ⟨rfl, rfl⟩ : c0 :: rs0 = rs ∧ s :: ss0 = ss := by
            simpa [Prod.ext_iff] using h
          intro c hc
          rcases List.mem_cons.mp hc with rfl | hc
          · exact pyIndex_mem cs idx c hpy
          · exact ih rs0 ss0 hrec c hc
    · exact ih rs ss h

theorem gatherHits_drop_high (cs : List Chunk) (hits : List (ℚ × Int)) :
    gatherHits cs (hits.filter fun p => p.2 < (cs.length : Int)) =
      gatherHits cs hits := by
  induction hits with
  | nil => rfl
  | cons p rest ih =>
    obtain ⟨s, idx⟩ := p
    by_cases h : idx < (cs.length : Int)
    · rw [List.filter_cons_of_pos (by simpa using h)]
      simp only [gatherHits, if_pos h, ih]
    · rw [List.filter_cons_of_neg (by simpa using h)]
      rw [ih]
      simp only [gatherHits, if_neg h]

theorem filter_relevant_mem (t : ℚ) (chunks : List Chunk) (scores : List ℚ)
    (out : List Chunk) (h : filter_relevant_chunks t chunks scores = some out) :
    ∀ c' ∈ out, ∃ c ∈ chunks, ∃ s : ℚ, c' = setRelevance c s := by
  intro c' hc'
  simp only [filter_relevant_chunks] at h
  split at h
  · obtain rfl : ([] : List Chunk) = out := by simpa using h
    simp at hc'
  · split at h
    · split at h
      · exact absurd h (by simp)
      · split at h
        · next c s hcg hsg =>
          obtain rfl : [setRelevance c s] = out := by simpa using h
          rcases List.mem_singleton.mp hc' with rfl
          exact ⟨c, List.getElem?_mem hcg, s, rfl⟩
        · exact absurd h (by simp)
    · obtain rfl :
          (((chunks.zip scores).filter fun cs => t ≤ cs.2).map
            fun cs => setRelevance cs.1 cs.2) = out := by simpa using h
      obtain ⟨p, hpf, rfl⟩ := List.mem_map.mp hc'
      exact ⟨p.1, (List.of_mem_zip (List.mem_filter.mp hpf).1).1, p.2, rfl⟩

theorem search_ok_setRelevance (model : Model) (isearch : IndexSearch)
    (m : EmbeddingsManager) (cs : List Chunk) (q : String) (k : Nat)
    (out : List Chunk) (hcs : m.chunks = some cs)
    (h : search_similar_chunks model isearch m q k = Except.ok out) :
    ∀ c' ∈ out, ∃ c ∈ cs, ∃ s : ℚ, c' = setRelevance c s := by
  obtain ⟨ix, mcs, t⟩ := m
  obtain rfl : mcs = some cs := by simpa using hcs
  cases ix with
  | none => simp [search_similar_chunks] at h
  | some ixv =>
    simp only [search_similar_chunks] at h
    split at h
    · exact absurd h (by simp)
    · split at h
      · exact absurd h (by simp)
      · next results rscores hgather =>
        split at h
        · exact absurd h (by simp)
        · next rel hfilter =>
          obtain rfl : rel = out := by simpa using h
          intro c' hc'
          obtain ⟨c, hcres, s, rfl⟩ :=
            filter_relevant_mem _ _ _ _ hfilter c' hc'
          exact ⟨c, gatherHits_mem _ _ _ _ hgather c hcres, s, rfl⟩

theorem findArtifact_put {α : Type} (pre : String) (v : α)
    (files : List (String × α)) :
    findArtifact pre (putArtifact pre v files) = some v := by
  simp [findArtifact, putArtifact]

theorem loadAll_none (store : Store) (sources : List String) (s : String)
    (hs : s ∈ sources) (hmiss : findArtifact s store.chunkFiles = none) :
    loadAllChunks store sources = none := by
  induction sources with
  | nil => simp at hs
  | cons a rest ih =>
    rcases List.mem_cons.mp hs with rfl | hs
    · simp [loadAllChunks, hmiss]
    · simp only [loadAllChunks]
      split
      · rfl
      · rw [ih hs]

theorem loadAll_length (store : Store) (sources : List String) (all : List Chunk)
    (h : loadAllChunks store sources = some all) :
    all.length =
      (sources.map fun s => ((findArtifact s store.chunkFiles).getD []).length).sum := by
  induction sources generalizing all with
  | nil =>
    obtain rfl : ([] : List Chunk) = all := by simpa [loadAllChunks] using h
    simp
  | cons a rest ih =>
    simp only [loadAllChunks] at h
    split at h
    · exact absurd h (by simp)
    · next cs hfind =>
      split at h
      · exact absurd h (by simp)
      · next acc hrec =>
        obtain rfl : cs ++ acc = all := by simpa using h
        simp [hfind, ih acc hrec]

/-! ## Claims about the relevance filter -/

/-- Sample chunks used to witness the theorems on concrete inputs. -/
def sampleA : Chunk :=
  { text := "fees"
    metadata := [("source", "a.pdf"), ("type", "pdf")]
    relevance_score := none }

/-- A second sample chunk. -/
def sampleB : Chunk :=
  { text := "hours"
    metadata := [("source", "w"), ("type", "web")]
    relevance_score := none }

/-- C1: on a candidate set in which no score meets the threshold,
`filter_relevant_chunks` returns `[]` for empty input and exactly the single
maximum-scoring candidate (score stamped into `relevance_score`) for
non-empty input; the result is empty iff the input is. -/
theorem c1_fallback_policy (t : ℚ) (chunks : List Chunk) (scores : List ℚ)
    (hlen : chunks.length = scores.length)
    (hbelow : ∀ s ∈ scores, s < t) :
    (chunks = [] → filter_relevant_chunks t chunks scores = some []) ∧
    (chunks ≠ [] → ∃ (i : Nat) (c : Chunk) (s : ℚ), chunks[i]? = some c ∧ scores[i]? = some s ∧
      filter_relevant_chunks t chunks scores = some [setRelevance c s] ∧
      ∀ y ∈ scores, y ≤ s) ∧
    (filter_relevant_chunks t chunks scores = some [] ↔ chunks = []) := by
  have hempty : chunks = [] → filter_relevant_chunks t chunks scores = some [] := by
    rintro rfl
    simp [filter_relevant_chunks]
  have hmain : chunks ≠ [] → ∃ (i : Nat) (c : Chunk) (s : ℚ), chunks[i]? = some c ∧ scores[i]? = some s ∧
      filter_relevant_chunks t chunks scores = some [setRelevance c s] ∧
      ∀ y ∈ scores, y ≤ s := by
    intro hch
    rcases scores with _ | ⟨x, xs⟩
    · exact absurd (List.length_eq_zero.mp hlen) hch
    · rcases hmx : argmaxIdx (x :: xs) with _ | ⟨ti, v⟩
      · simp [argmaxIdx] at hmx
      · obtain ⟨hsv, hmax⟩ := argmaxIdx_spec _ _ _ hmx
        have hti : ti < (x :: xs).length := (List.getElem?_eq_some.mp hsv).1
        have htic : ti < chunks.length := by rw [hlen]; exact hti
        have hc : chunks[ti]? = some (chunks.get ⟨ti, htic⟩) :=
          List.getElem?_eq_getElem htic
        exact ⟨ti, _, v, hc, hsv,
          filter_fallback_branch t chunks (x :: xs) hch hbelow ti v hmx _ hc, hmax⟩
  refine ⟨hempty, hmain, ?_, hempty⟩
  intro hres
  by_contra hch
  obtain ⟨i, c, s, _, _, hfe, _⟩ := hmain hch
  rw [hfe] at hres
  simp at hres

/-- Witness for C1 at a concrete input: two candidates scoring `0` and `-1`
against threshold `1`; the filter falls back to the first (maximal) one. -/
theorem c1_fallback_policy_witness :
    (([sampleA, sampleB] : List Chunk).length = ([0, -1] : List ℚ).length) ∧
    (∀ s ∈ ([0, -1] : List ℚ), s < 1) ∧
    ((([sampleA, sampleB] : List Chunk) = [] →
        filter_relevant_chunks 1 [sampleA, sampleB] [0, -1] = some []) ∧
      (([sampleA, sampleB] : List Chunk) ≠ [] →
        ∃ (i : Nat) (c : Chunk) (s : ℚ), ([sampleA, sampleB] : List Chunk)[i]? = some c ∧
          ([0, -1] : List ℚ)[i]? = some s ∧
          filter_relevant_chunks 1 [sampleA, sampleB] [0, -1] =
            some [setRelevance c s] ∧
          ∀ y ∈ ([0, -1] : List ℚ), y ≤ s) ∧
      (filter_relevant_chunks 1 [sampleA, sampleB] [0, -1] = some [] ↔
        ([sampleA, sampleB] : List Chunk) = [])) :=
  ⟨rfl, by decide, c1_fallback_policy 1 [sampleA, sampleB] [0, -1] rfl (by decide)⟩

/-- C2: when at least one candidate clears the threshold, the filter returns
exactly the subsequence of candidates with score above it, each with the
score stamped into `relevance_score`, and every returned chunk carries a
recorded score that clears the threshold. -/
theorem c2_threshold_correctness (t : ℚ) (chunks : List Chunk) (scores : List ℚ)
    (hlen : chunks.length = scores.length)
    (hex : ∃ s ∈ scores, t ≤ s) :
    filter_relevant_chunks t chunks scores =
      some (((chunks.zip scores).filter fun cs => t ≤ cs.2).map
        fun cs => setRelevance cs.1 cs.2) ∧
    ∀ c ∈ ((chunks.zip scores).filter fun cs => t ≤ cs.2).map
        fun cs => setRelevance cs.1 cs.2,
      ∃ s, c.relevance_score = some s ∧ t ≤ s := by
  obtain ⟨s, hsmem, hst⟩ := hex
  obtain ⟨i, hsi⟩ := List.mem_iff_getElem?.mp hsmem
  have hi : i < scores.length := (List.getElem?_eq_some.mp hsi).1
  have hic : i < chunks.length := by rw [hlen]; exact hi
  have hci : chunks[i]? = some (chunks.get ⟨i, hic⟩) := List.getElem?_eq_getElem hic
  have hpmem : (chunks.get ⟨i, hic⟩, s) ∈ chunks.zip scores :=
    List.getElem?_mem (getElem?_zip_of_getElem? _ _ _ _ _ hci hsi)
  refine ⟨filter_hit_branch t chunks scores ⟨_, hpmem, hst⟩, ?_⟩
  intro c hc
  obtain ⟨p, hpf, rfl⟩ := List.mem_map.mp hc
  exact ⟨p.2, rfl, by simpa using (List.mem_filter.mp hpf).2⟩

/-- Witness for C2 at a concrete input: candidates scoring `2` and `0`
against threshold `1`; only the first is kept, with its score recorded. -/
theorem c2_threshold_correctness_witness :
    (([sampleA, sampleB] : List Chunk).length = ([2, 0] : List ℚ).length) ∧
    (∃ s ∈ ([2, 0] : List ℚ), (1 : ℚ) ≤ s) ∧
    (filter_relevant_chunks 1 [sampleA, sampleB] [2, 0] =
      some (((([sampleA, sampleB] : List Chunk).zip ([2, 0] : List ℚ)).filter
          fun cs => (1 : ℚ) ≤ cs.2).map fun cs => setRelevance cs.1 cs.2) ∧
      ∀ c ∈ ((([sampleA, sampleB] : List Chunk).zip ([2, 0] : List ℚ)).filter
          fun cs => (1 : ℚ) ≤ cs.2).map fun cs => setRelevance cs.1 cs.2,
        ∃ s, c.relevance_score = some s ∧ (1 : ℚ) ≤ s) :=
  ⟨rfl, by decide, c2_threshold_correctness 1 [sampleA, sampleB] [2, 0] rfl (by decide)⟩

/-! ## Claims about the manager state machine -/

/-- A third sample chunk, for the combine scenario. -/
def sampleC : Chunk :=
  { text := "map", metadata := [("source", "w"), ("type", "web")],
    relevance_score := none }

/-- A fourth sample chunk. -/
def sampleD : Chunk :=
  { text := "staff", metadata := [("source", "w"), ("type", "web")],
    relevance_score := none }

/-- A fifth sample chunk. -/
def sampleE : Chunk :=
  { text := "exams", metadata := [("source", "b.pdf"), ("type", "pdf")],
    relevance_score := none }

/-- A freshly constructed manager: nothing built or loaded yet. -/
def freshManager : EmbeddingsManager :=
  { index := none, chunks := none, relevance_threshold := defaultThreshold }

/-- A manager that already holds a built index, to exercise replacement. -/
def loadedManager : EmbeddingsManager :=
  { index := some [[7]], chunks := some [sampleA],
    relevance_threshold := defaultThreshold }

/-- A manager holding two chunks, to exercise search. -/
def searchManager : EmbeddingsManager :=
  { index := some [[1], [1]], chunks := some [sampleA, sampleB],
    relevance_threshold := 1 }

/-- A sample external model that embeds every text as `[1]`. -/
def oneModel : Model := fun _ => some [1]

/-- A sample external model whose encode call always raises. -/
def failingModel : Model := fun _ => none

/-- An empty snapshot store. -/
def emptyStore : Store := { indexFiles := [], chunkFiles := [] }

/-- The manager state after building `[sampleA]` with `oneModel`. -/
def builtA : EmbeddingsManager :=
  { index := some [[1]], chunks := some [sampleA],
    relevance_threshold := defaultThreshold }

/-- C3: a successful build holds one vector per chunk
(`index.size() == len(chunks)`), and every chunk a subsequent search
returns is, up to the transiently attached `relevance_score`, an element of
the chunk sequence that was passed to build. -/
theorem c3_build_alignment (model : Model) (isearch : IndexSearch)
    (m m1 : EmbeddingsManager) (chunks : List Chunk) (embs : List Vec)
    (hbuild : create_embeddings model m chunks = (m1, some embs)) :
    m1.index = some embs ∧ embs.length = chunks.length ∧
    ∀ (q : String) (k : Nat) (out : List Chunk),
      search_similar_chunks model isearch m1 q k = Except.ok out →
      ∀ c' ∈ out, ∃ c ∈ chunks, c'.text = c.text ∧ c'.metadata = c.metadata := by
  obtain ⟨rfl, henc, -⟩ := create_embeddings_success model m m1 chunks embs hbuild
  refine ⟨rfl, ?_, ?_⟩
  · simpa using encodeBatch_length model _ embs henc
  · intro q k out hok c' hc'
    obtain ⟨c, hcm, s, rfl⟩ :=
      search_ok_setRelevance model isearch _ chunks q k out rfl hok c' hc'
    exact ⟨c, hcm, rfl, rfl⟩

/-- Witness for C3: build one chunk with the sample model, then the
invariant and the alignment guarantee hold for it. -/
theorem c3_build_alignment_witness :
    (create_embeddings oneModel freshManager [sampleA] = (builtA, some [[1]])) ∧
    (builtA.index = some [[1]] ∧
      ([[1]] : List Vec).length = ([sampleA] : List Chunk).length ∧
      ∀ (q : String) (k : Nat) (out : List Chunk),
        search_similar_chunks oneModel (fun _ _ _ => [(2, 0)]) builtA q k =
          Except.ok out →
        ∀ c' ∈ out, ∃ c ∈ ([sampleA] : List Chunk),
          c'.text = c.text ∧ c'.metadata = c.metadata) :=
  ⟨rfl, c3_build_alignment oneModel (fun _ _ _ => [(2, 0)]) freshManager builtA
    [sampleA] [[1]] rfl⟩

/-- C4 counterexample: the guard `idx < len(self.chunks)` does not drop the
out-of-range id `-1` (which FAISS returns when `k` exceeds the index size):
Python negative indexing makes it contribute the last chunk.  Here the
index search returns only the id `-1`, yet the search result is
non-empty. -/
theorem c4_counterexample :
    search_similar_chunks oneModel (fun _ _ _ => [(2, -1)]) searchManager "q" 5 =
      Except.ok [setRelevance sampleB 2] ∧ (-1 : Int) < 0 :=
  ⟨rfl, by decide⟩

/-- C4, amended: the search silently drops exactly the returned ids that
are `≥ len(chunks)` — removing them from the returned hit list leaves the
result unchanged.  (Negative ids are not dropped: they index from the end
of the chunk sequence, as the counterexample shows.) -/
theorem c4_amended_drops_high_ids (model : Model) (m : EmbeddingsManager)
    (cs : List Chunk) (hits : List (ℚ × Int)) (q : String) (k : Nat)
    (hcs : m.chunks = some cs) :
    search_similar_chunks model (fun _ _ _ => hits) m q k =
      search_similar_chunks model
        (fun _ _ _ => hits.filter fun p => p.2 < (cs.length : Int)) m q k := by
  obtain ⟨ix, mcs, t⟩ := m
  obtain rfl : mcs = some cs := by simpa using hcs
  cases ix with
  | none => rfl
  | some ixv =>
    simp only [search_similar_chunks]
    rcases hq : model q with _ | qv
    · rfl
    · rw [gatherHits_drop_high]

/-- Witness for C4's amended statement: a hit list holding one negative and
one too-large id gives the same search result as its in-guard sublist. -/
theorem c4_amended_drops_high_ids_witness :
    searchManager.chunks = some [sampleA, sampleB] ∧
    search_similar_chunks oneModel (fun _ _ _ => [(2, -1), (3, 7)])
        searchManager "q" 5 =
      search_similar_chunks oneModel
        (fun _ _ _ => ([(2, -1), (3, 7)] : List (ℚ × Int)).filter
          fun p => p.2 < (([sampleA, sampleB] : List Chunk).length : Int))
        searchManager "q" 5 :=
  ⟨rfl, c4_amended_drops_high_ids oneModel searchManager [sampleA, sampleB]
    [(2, -1), (3, 7)] "q" 5 rfl⟩

/-- C5 counterexample: `create_embeddings` assigns `self.chunks` before
encoding, so when `encode` raises, the previously held chunk sequence is
already gone — only the index survives.  The claim's "chunk sequence …
left unchanged" fails. -/
theorem c5_counterexample :
    (create_embeddings failingModel loadedManager [sampleB]).2 = none ∧
    (create_embeddings failingModel loadedManager [sampleB]).1.chunks ≠
      loadedManager.chunks ∧
    (create_embeddings failingModel loadedManager [sampleB]).1.index =
      loadedManager.index :=
  ⟨rfl, by decide, rfl⟩

/-- C5, amended: the build is torn, not atomic.  On an `EmbeddingError`
(or an empty batch) the manager keeps its old index but already holds the
new chunk sequence; on success both components are replaced together. -/
theorem c5_amended_torn_build (model : Model) (m : EmbeddingsManager)
    (chunks : List Chunk) :
    ((create_embeddings model m chunks).2 = none →
      (create_embeddings model m chunks).1 = { m with chunks := some chunks }) ∧
    (∀ embs, (create_embeddings model m chunks).2 = some embs →
      (create_embeddings model m chunks).1 =
        { index := some embs, chunks := some chunks,
          relevance_threshold := m.relevance_threshold }) := by
  refine ⟨create_embeddings_failure model m chunks, ?_⟩
  intro embs h
  have hpair : create_embeddings model m chunks =
      ((create_embeddings model m chunks).1, some embs) := by
    rw [← h]
  exact (create_embeddings_success model m _ chunks embs hpair).1

/-- Witness for C5's amended statement: the failing build keeps the old
index `[[7]]` but already holds the new chunk list `[sampleB]`. -/
theorem c5_amended_torn_build_witness :
    (create_embeddings failingModel loadedManager [sampleB]).1 =
      { loadedManager with chunks := some [sampleB] } :=
  (c5_amended_torn_build failingModel loadedManager [sampleB]).1 rfl

/-- C6: retrieval never rewrites a stored chunk's persisted identity — every
chunk a search returns is a stored chunk with at most its transient
`relevance_score` changed; its text and its other metadata are exactly
those of the stored chunk. -/
theorem c6_transient_relevance (model : Model) (isearch : IndexSearch)
    (m : EmbeddingsManager) (cs : List Chunk) (q : String) (k : Nat)
    (out : List Chunk) (hcs : m.chunks = some cs)
    (hok : search_similar_chunks model isearch m q k = Except.ok out) :
    ∀ c' ∈ out, ∃ c ∈ cs, ∃ s : ℚ, c' = setRelevance c s ∧
      c'.text = c.text ∧ c'.metadata = c.metadata := by
  intro c' hc'
  obtain ⟨c, hcm, s, rfl⟩ :=
    search_ok_setRelevance model isearch m cs q k out hcs hok c' hc'
  exact ⟨c, hcm, s, rfl, rfl, rfl⟩

/-- Witness for C6 on a concrete two-chunk search returning one result. -/
theorem c6_transient_relevance_witness :
    searchManager.chunks = some [sampleA, sampleB] ∧
    search_similar_chunks oneModel (fun _ _ _ => [(2, 0)]) searchManager "q" 3 =
      Except.ok [setRelevance sampleA 2] ∧
    ∀ c' ∈ [setRelevance sampleA 2], ∃ c ∈ ([sampleA, sampleB] : List Chunk),
      ∃ s : ℚ, c' = setRelevance c s ∧ c'.text = c.text ∧
        c'.metadata = c.metadata :=
  ⟨rfl, rfl, c6_transient_relevance oneModel (fun _ _ _ => [(2, 0)])
    searchManager [sampleA, sampleB] "q" 3 [setRelevance sampleA 2] rfl rfl⟩

/-- C7: build, persist, load round-trips the chunk sequence — the persist
succeeds with the two deterministic paths, the load succeeds, and the
loaded chunk sequence (and index) equal the built ones, order and content
included. -/
theorem c7_persist_load_roundtrip (model : Model) (m m1 : EmbeddingsManager)
    (store : Store) (pre : String) (cs : List Chunk) (embs : List Vec)
    (_hne : cs ≠ [])
    (hbuild : create_embeddings model m cs = (m1, some embs)) :
    (save_embeddings m1 store pre).2 =
      Except.ok (indexPath pre, chunksPath pre) ∧
    (load_embeddings (save_embeddings m1 store pre).1 m1 pre).2 = true ∧
    (load_embeddings (save_embeddings m1 store pre).1 m1 pre).1.chunks =
      some cs ∧
    (load_embeddings (save_embeddings m1 store pre).1 m1 pre).1.index =
      some embs := by
  obtain ⟨rfl, -, -⟩ := create_embeddings_success model m m1 cs embs hbuild
  refine ⟨rfl, ?_, ?_, ?_⟩ <;>
    simp [save_embeddings, load_embeddings, findArtifact_put]

/-- Witness for C7: build `[sampleA]`, persist under `"u"`, load it back. -/
theorem c7_persist_load_roundtrip_witness :
    (([sampleA] : List Chunk) ≠ []) ∧
    (create_embeddings oneModel freshManager [sampleA] = (builtA, some [[1]])) ∧
    ((save_embeddings builtA emptyStore "u").2 =
        Except.ok (indexPath "u", chunksPath "u") ∧
      (load_embeddings (save_embeddings builtA emptyStore "u").1 builtA "u").2 =
        true ∧
      (load_embeddings (save_embeddings builtA emptyStore "u").1 builtA
          "u").1.chunks = some [sampleA] ∧
      (load_embeddings (save_embeddings builtA emptyStore "u").1 builtA
          "u").1.index = some [[1]]) :=
  ⟨by decide, rfl, c7_persist_load_roundtrip oneModel freshManager builtA
    emptyStore "u" [sampleA] [[1]] (by decide) rfl⟩

/-- C8: `combine` returns `false` when any source's chunk artifact is
missing; otherwise it concatenates the sources' chunk sequences in order,
rebuilds the index from the concatenation, persists under the canonical
`"university_combined"` prefix, the resulting chunk count is the sum of the
sources' counts, and a subsequent load recovers exactly the concatenation. -/
theorem c8_combine_sources (model : Model) (m : EmbeddingsManager)
    (store : Store) (sources : List String) :
    ((∃ s ∈ sources, findArtifact s store.chunkFiles = none) →
      combine_embeddings model m store sources = (m, store, Except.ok false)) ∧
    (∀ (all : List Chunk) (embs : List Vec),
      loadAllChunks store sources = some all → all ≠ [] →
      encodeBatch model (all.map fun c => c.text) = some embs →
      combine_embeddings model m store sources =
        ({ index := some embs, chunks := some all,
           relevance_threshold := m.relevance_threshold },
         { indexFiles := putArtifact "university_combined" embs store.indexFiles,
           chunkFiles := putArtifact "university_combined" all store.chunkFiles },
         Except.ok true) ∧
      all.length =
        (sources.map fun s =>
          ((findArtifact s store.chunkFiles).getD []).length).sum ∧
      ∀ m2 : EmbeddingsManager,
        load_embeddings
          { indexFiles := putArtifact "university_combined" embs store.indexFiles,
            chunkFiles := putArtifact "university_combined" all store.chunkFiles }
          m2 "university_combined" =
        ({ m2 with index := some embs, chunks := some all }, true)) := by
  constructor
  · rintro ⟨s, hs, hmiss⟩
    simp only [combine_embeddings, loadAll_none store sources s hs hmiss]
  · intro all embs hall hne henc
    have hembne : embs ≠ [] := by
      have hl := encodeBatch_length model _ _ henc
      simp only [List.length_map] at hl
      intro h0
      rw [h0] at hl
      exact hne (List.length_eq_zero.mp hl.symm)
    have hcreate := create_embeddings_of_encode model m all embs henc hembne
    refine ⟨?_, loadAll_length store sources all hall, ?_⟩
    · simp only [combine_embeddings, hall, hcreate, save_embeddings]
    · intro m2
      simp [load_embeddings, findArtifact_put]

/-- Witness for C8, the spec's scenario: sources `a` with 2 chunks and `b`
with 3 chunks combine into an index of exactly 5 chunks, persisted and
recoverable; with `b`'s artifact missing, combine returns `false`. -/
theorem c8_combine_sources_witness :
    (combine_embeddings oneModel freshManager
        { indexFiles := [], chunkFiles := [("a", [sampleA, sampleB])] }
        ["a", "b"] =
      (freshManager,
       { indexFiles := [], chunkFiles := [("a", [sampleA, sampleB])] },
       Except.ok false)) ∧
    (combine_embeddings oneModel freshManager
        { indexFiles := [],
          chunkFiles := [("a", [sampleA, sampleB]),
                         ("b", [sampleC, sampleD, sampleE])] }
        ["a", "b"] =
      ({ index := some [[1], [1], [1], [1], [1]],
         chunks := some [sampleA, sampleB, sampleC, sampleD, sampleE],
         relevance_threshold := freshManager.relevance_threshold },
       { indexFiles := putArtifact "university_combined"
           [[1], [1], [1], [1], [1]] [],
         chunkFiles := putArtifact "university_combined"
           [sampleA, sampleB, sampleC, sampleD, sampleE]
           [("a", [sampleA, sampleB]), ("b", [sampleC, sampleD, sampleE])] },
       Except.ok true) ∧
      ([sampleA, sampleB, sampleC, sampleD, sampleE] : List Chunk).length =
        ((["a", "b"] : List String).map fun s =>
          ((findArtifact s
            (Store.mk []
              [("a", [sampleA, sampleB]),
               ("b", [sampleC, sampleD, sampleE])]).chunkFiles).getD
            []).length).sum ∧
      ∀ m2 : EmbeddingsManager,
        load_embeddings
          { indexFiles := putArtifact "university_combined"
              [[1], [1], [1], [1], [1]] [],
            chunkFiles := putArtifact "university_combined"
              [sampleA, sampleB, sampleC, sampleD, sampleE]
              [("a", [sampleA, sampleB]), ("b", [sampleC, sampleD, sampleE])] }
          m2 "university_combined" =
        ({ m2 with index := some [[1], [1], [1], [1], [1]],
                   chunks := some [sampleA, sampleB, sampleC, sampleD, sampleE] },
         true)) :=
  ⟨(c8_combine_sources oneModel freshManager
      { indexFiles := [], chunkFiles := [("a", [sampleA, sampleB])] }
      ["a", "b"]).1 ⟨"b", by decide, rfl⟩,
   (c8_combine_sources oneModel freshManager
      { indexFiles := [],
        chunkFiles := [("a", [sampleA, sampleB]),
                       ("b", [sampleC, sampleD, sampleE])] }
      ["a", "b"]).2 [sampleA, sampleB, sampleC, sampleD, sampleE]
      [[1], [1], [1], [1], [1]] rfl (by decide) rfl⟩

/-- C9: with no index or no chunk sequence held, both `search` and
`persist` fail with the `StateError`-class `ValueError`, and `persist`
writes nothing. -/
theorem c9_state_error (model : Model) (isearch : IndexSearch)
    (m : EmbeddingsManager) (store : Store) (q : String) (k : Nat)
    (pre : String) (h : m.index = none ∨ m.chunks = none) :
    search_similar_chunks model isearch m q k =
      Except.error PyErr.stateError ∧
    save_embeddings m store pre = (store, Except.error PyErr.stateError) := by
  obtain ⟨ix, mcs, t⟩ := m
  simp only at h
  rcases h with rfl | rfl
  · exact ⟨rfl, rfl⟩
  · cases ix <;> exact ⟨rfl, rfl⟩

/-- Witness for C9: a freshly constructed manager. -/
theorem c9_state_error_witness :
    search_similar_chunks oneModel (fun _ _ _ => []) freshManager "q" 15 =
      Except.error PyErr.stateError ∧
    save_embeddings freshManager emptyStore "university_combined" =
      (emptyStore, Except.error PyErr.stateError) :=
  c9_state_error oneModel (fun _ _ _ => []) freshManager emptyStore "q" 15
    "university_combined" (Or.inl rfl)

/-- C10: when `combine` returns `false` because a source's chunk artifact
is missing, the in-memory manager and the snapshot store are exactly what
they were — nothing is mutated and nothing is written. -/
theorem c10_combine_missing_preserves (model : Model) (m : EmbeddingsManager)
    (store : Store) (sources : List String) (s : String)
    (hs : s ∈ sources) (hmiss : findArtifact s store.chunkFiles = none) :
    combine_embeddings model m store sources = (m, store, Except.ok false) := by
  simp only [combine_embeddings, loadAll_none store sources s hs hmiss]

/-- Witness for C10: combining `["a", "b"]` with `b`'s artifact missing
leaves a loaded manager and the store untouched. -/
theorem c10_combine_missing_preserves_witness :
    ("b" ∈ (["a", "b"] : List String)) ∧
    (findArtifact "b"
      (Store.mk [] [("a", [sampleA, sampleB])]).chunkFiles = none) ∧
    combine_embeddings oneModel loadedManager
        { indexFiles := [], chunkFiles := [("a", [sampleA, sampleB])] }
        ["a", "b"] =
      (loadedManager,
       { indexFiles := [], chunkFiles := [("a", [sampleA, sampleB])] },
       Except.ok false) :=
  ⟨by decide, rfl, c10_combine_missing_preserves oneModel loadedManager
    { indexFiles := [], chunkFiles := [("a", [sampleA, sampleB])] }
    ["a", "b"] "b" (by decide) rfl⟩

end RagCore
